import Mathlib

/-
Verification of the egui_console line-editing console core.

The Rust code is shallowly embedded: Rust `String` values are modelled as
`List Char` (named `RStr`), with byte lengths computed from UTF-8 character
sizes so that byte-offset arithmetic (`str::len`, `String::truncate`,
`str::rfind`) is faithful.  Stateful methods on `ConsoleWindow` become pure
functions from the state record to a new state record.  The fallible
`Option::unwrap` in `exit_search_mode` is modelled by returning `Option`.

GUI-only fields of the source struct (egui `Id`, `init_done`, the koto
runtime handle, and the tab-completion scratch fields whose handler lives in
the `tab` module) are omitted: no modelled operation reads or writes them.
-/

namespace EguiConsole

/-- Rust `String` / `&str`, modelled as its character sequence. -/
abbrev RStr := List Char

/-- Rust `str::len`: the length in UTF-8 bytes. -/
def byteLen (s : RStr) : Nat := (s.map Char.utf8Size).sum

/-- Split a character sequence at every newline character; the separator is
dropped.  A trailing newline yields a trailing empty piece. -/
def splitNl : RStr → List RStr
  | [] => [[]]
  | c :: rest =>
    let r := splitNl rest
    if c = '\n' then [] :: r
    else
      match r with
      | [] => [[c]]
      | l :: ls => (c :: l) :: ls

/-- Drop one trailing carriage return, as Rust `str::lines` does per line. -/
def stripCr (l : RStr) : RStr :=
  if l.getLast? = some '\r' then l.dropLast else l

/-- Rust `str::lines`: split on `'\n'`, drop the piece after a final
newline, and strip one trailing `'\r'` from each line. -/
def rustLines (s : RStr) : List RStr :=
  if s = [] then []
  else
    let parts := splitNl s
    let parts := if parts.getLast? = some [] then parts.dropLast else parts
    parts.map stripCr

/-- Helper for `lastLineOffset`: walk the characters accumulating the byte
position, remembering the byte position just after the last newline seen. -/
def lastLineOffsetAux : List Char → Nat → Nat → Nat
  | [], _, best => best
  | c :: rest, pos, best =>
    lastLineOffsetAux rest (pos + c.utf8Size)
      (if c = '\n' then pos + c.utf8Size else best)

/-- `ConsoleWindow::last_line_offset`: byte offset of the start of the last
line, i.e. `text.rfind('\n').map_or(0, |off| off + 1)`. -/
def lastLineOffset (s : RStr) : Nat := lastLineOffsetAux s 0 0

/-- Rust `String::truncate(n)` at a character boundary: keep the longest
character prefix of at most `n` bytes. -/
def byteTruncate : RStr → Nat → RStr
  | [], _ => []
  | c :: rest, n =>
    if c.utf8Size ≤ n then c :: byteTruncate rest (n - c.utf8Size) else []

/-- Rust `str::strip_prefix`: `some` of the remainder when the pattern is a
prefix, otherwise `none`. -/
def stripPrefixOpt (s p : RStr) : Option RStr :=
  if p.isPrefixOf s then some (s.drop p.length) else none

/-- Rust `str::strip_suffix`. -/
def stripSuffixOpt (s p : RStr) : Option RStr :=
  if p.isSuffixOf s then some (s.take (s.length - p.length)) else none

/-- Rust `str::contains` for a string pattern: substring containment. -/
def rustContains : RStr → RStr → Bool
  | [], pat => pat.isPrefixOf ([] : RStr)
  | c :: rest, pat => pat.isPrefixOf (c :: rest) || rustContains rest pat

/-- Rust `str::trim`: drop leading and trailing whitespace characters. -/
def rustTrim (s : RStr) : RStr :=
  ((s.dropWhile Char.isWhitespace).reverse.dropWhile Char.isWhitespace).reverse

/-- Helper for `splitWhitespace`, accumulating the current word reversed. -/
def splitWsAux : RStr → RStr → List RStr
  | [], acc => if acc = [] then [] else [acc.reverse]
  | c :: rest, acc =>
    if c.isWhitespace then
      (if acc = [] then [] else [acc.reverse]) ++ splitWsAux rest []
    else splitWsAux rest (c :: acc)

/-- Rust `str::split_whitespace`: maximal whitespace-free words, in order. -/
def splitWhitespace (s : RStr) : List RStr := splitWsAux s []

/-- `egui::Color32`, restricted to the `from_rgb` constructor used by the
source (alpha is the constant 255 in every use and is omitted). -/
structure Color32 where
  r : Nat
  g : Nat
  b : Nat
  deriving DecidableEq

/-- `console::TextStyle`. -/
inductive TextStyle where
  | Normal
  | Error
  | Success
  | Warning
  | Info
  | Custom (color : Color32)
  deriving DecidableEq

/-- `console::StyledText`. -/
structure StyledText where
  text : RStr
  style : TextStyle
  deriving DecidableEq

/-- `console::TerminalTheme`. -/
structure TerminalTheme where
  background : Color32
  foreground : Color32
  selection : Color32
  cursor : Color32
  error : Color32
  success : Color32
  warning : Color32
  info : Color32
  prompt : Color32
  deriving DecidableEq

/-- `TerminalTheme::default`. -/
def TerminalTheme.default : TerminalTheme where
  background := ⟨30, 30, 30⟩
  foreground := ⟨220, 220, 220⟩
  selection := ⟨70, 70, 70⟩
  cursor := ⟨255, 255, 255⟩
  error := ⟨255, 85, 85⟩
  success := ⟨80, 250, 123⟩
  warning := ⟨255, 184, 108⟩
  info := ⟨139, 233, 253⟩
  prompt := ⟨189, 147, 249⟩

/-- `completion::ArgumentInfo`. -/
structure ArgumentInfo where
  name : RStr
  description : RStr
  is_required : Bool
  deriving DecidableEq

/-- `completion::CommandInfo`. -/
structure CommandInfo where
  description : RStr
  subcommands : List RStr
  arguments : List ArgumentInfo
  deriving DecidableEq

/-- `completion::IntelligentCompletion`.  The two `HashMap`s are modelled as
association lists; the source only reads them through `get` (modelled by
`List.lookup`) except in the one-token suggestion branch, whose iteration
order over a `HashMap` is unspecified in Rust and is taken here to be the
list order. -/
structure IntelligentCompletion where
  aliases : List (RStr × RStr)
  command_structure : List (RStr × CommandInfo)
  deriving DecidableEq

/-- `egui::Modifiers`, the five boolean flags matched on by `handle_key`. -/
structure Modifiers where
  alt : Bool
  ctrl : Bool
  shift : Bool
  mac_cmd : Bool
  command : Bool
  deriving DecidableEq

/-- `Modifiers::NONE`. -/
def Modifiers.NONE : Modifiers := ⟨false, false, false, false, false⟩

/-- The `egui::Key`s whose combinations `handle_key` matches on.  `Other`
stands for every remaining key, all of which fall to the wildcard arm.  The
`Tab` arm is not modelled: its handler lives in the `tab` module, outside the
verified core, and no claim mentions it. -/
inductive Key where
  | ArrowDown
  | ArrowUp
  | Enter
  | Delete
  | ArrowRight
  | ArrowLeft
  | Backspace
  | Escape
  | R
  | Other
  deriving DecidableEq

/-- `console::ConsoleWindow`: the state the modelled operations touch.
`search_query` models the source field `search_partial` (renamed only);
a styled segment `(a, b, st)` models the pair `(a..b, st)`. -/
structure ConsoleWindow where
  text : RStr
  force_cursor_to_end : Bool
  history_size : Nat
  scrollback_size : Nat
  command_history : List RStr
  history_cursor : Option Nat
  prompt : RStr
  prompt_len : Nat
  save_prompt : Option RStr
  search_query : Option RStr
  tab_command_table : List RStr
  styled_segments : List (Nat × Nat × TextStyle)
  theme : TerminalTheme
  intelligent_completion : Option IntelligentCompletion
  deriving DecidableEq

/-- The literal `SEARCH_PROMPT = "(reverse-i-search) :"`. -/
def SEARCH_PROMPT : RStr := "(reverse-i-search) :".data

/-- The constant `SEARCH_PROMPT_SLOT_OFF = 18`. -/
def SEARCH_PROMPT_SLOT_OFF : Nat := 18

/-- `ConsoleWindow::new`. -/
def ConsoleWindow.new (prompt : RStr) : ConsoleWindow where
  text := []
  force_cursor_to_end := false
  command_history := []
  history_cursor := none
  history_size := 100
  scrollback_size := 1000
  prompt := prompt
  prompt_len := prompt.length
  save_prompt := none
  search_query := none
  tab_command_table := []
  styled_segments := []
  theme := TerminalTheme.default
  intelligent_completion := none

/-- `ConsoleWindow::write_styled`: append the text, record a styled segment
covering exactly the appended bytes, and force the cursor to the end. -/
def ConsoleWindow.write_styled (s : ConsoleWindow) (st : StyledText) : ConsoleWindow :=
  let start := byteLen s.text
  let text := s.text ++ st.text
  { s with
    text := text
    styled_segments := s.styled_segments ++ [(start, byteLen text, st.style)]
    force_cursor_to_end := true }

/-- Helper for `truncate_scroll_back`: the body of its `for` loop, keeping
(with a trailing newline) every line whose index exceeds the threshold. -/
def keepLinesAux (threshold : Nat) : Nat → List RStr → RStr
  | _, [] => []
  | i, l :: rest =>
    (if threshold < i then l ++ ['\n'] else []) ++ keepLinesAux threshold (i + 1) rest

/-- `ConsoleWindow::truncate_scroll_back`, as a function of the text and the
configured scrollback size: when the line count has reached the size, rebuild
the buffer from the lines with index `> line_count - scrollback_size`. -/
def truncate_scroll_back (text : RStr) (scrollback_size : Nat) : RStr :=
  let line_count := (rustLines text).length
  if line_count < scrollback_size then text
  else keepLinesAux (line_count - scrollback_size) 0 (rustLines text)

/-- `ConsoleWindow::write`: push `"\n"` followed by the data, truncate the
scrollback, and force the cursor to the end. -/
def ConsoleWindow.write (s : ConsoleWindow) (data : RStr) : ConsoleWindow :=
  let text := s.text ++ '\n' :: data
  { s with
    text := truncate_scroll_back text s.scrollback_size
    force_cursor_to_end := true }

/-- `ConsoleWindow::get_last_line`: the last line of the buffer with the
current prompt stripped; the empty string when there is no last line or the
prompt is not its prefix. -/
def ConsoleWindow.get_last_line (s : ConsoleWindow) : RStr :=
  (stripPrefixOpt ((rustLines s.text).getLastD []) s.prompt).getD []

/-- `ConsoleWindow::draw_prompt`: append the prompt on a fresh line (adding a
newline only when the buffer is non-empty and does not already end in one)
and record a style span covering just the prompt text. -/
def ConsoleWindow.draw_prompt (s : ConsoleWindow) : ConsoleWindow :=
  let text := if s.text ≠ [] ∧ s.text.getLast? ≠ some '\n' then s.text ++ ['\n'] else s.text
  { s with
    text := text ++ s.prompt
    styled_segments :=
      s.styled_segments ++
        [(byteLen text, byteLen (text ++ s.prompt), TextStyle.Custom s.theme.prompt)] }

/-- `ConsoleWindow::enter_search_mode`: save the prompt, install the search
prompt on the truncated last line with an info-coloured span, and prime the
empty query. -/
def ConsoleWindow.enter_search_mode (s : ConsoleWindow) : ConsoleWindow :=
  let s := { s with
    save_prompt := some s.prompt
    prompt := SEARCH_PROMPT
    search_query := some [] }
  let text := byteTruncate s.text (lastLineOffset s.text)
  { s with
    text := text ++ s.prompt
    styled_segments :=
      s.styled_segments ++
        [(byteLen text, byteLen (text ++ s.prompt), TextStyle.Custom s.theme.info)]
    force_cursor_to_end := true }

/-- `ConsoleWindow::exit_search_mode`: restore the saved prompt (the source
`unwrap`s it; `none` models that panic), truncate the last line, redraw the
prompt and clear the search state. -/
def ConsoleWindow.exit_search_mode (s : ConsoleWindow) : Option ConsoleWindow :=
  match s.save_prompt with
  | none => none
  | some p =>
    let s := { s with prompt := p, save_prompt := none }
    let s := { s with text := byteTruncate s.text (lastLineOffset s.text) }
    let s := s.draw_prompt
    some { s with search_query := none, force_cursor_to_end := true }

/-- The index `history_back` starts scanning below: the browsing cursor when
set, otherwise the history length. -/
def ConsoleWindow.historyStart (s : ConsoleWindow) : Nat :=
  match s.history_cursor with
  | some hc => hc
  | none => s.command_history.length

/-- The `for i in (0..hc).rev()` loop of `ConsoleWindow::history_back`,
returning the `hist_line` it selects together with `some` of the new cursor
value when the loop assigned one (`none` means the cursor was not touched).
Indexing is `List.getD`; in the source `i` is always in bounds because the
cursor invariant keeps it below the history length. -/
def historyBackScan (history : List RStr) (search : Option RStr) : Nat → RStr × Option (Option Nat)
  | 0 => ([], none)
  | i + 1 =>
    match search with
    | some q =>
      if q = [] then ([], some none)
      else if rustContains (history.getD i []) q then (history.getD i [], some (some i))
      else historyBackScan history search i
    | none => (history.getD i [], some (some i))

/-- `ConsoleWindow::history_back`: scan backwards (filtering by the search
query while in search mode), update the browsing cursor, and when a history
line was found splice it over the editable part of the last line. -/
def ConsoleWindow.history_back (s : ConsoleWindow) : ConsoleWindow :=
  let res := historyBackScan s.command_history s.search_query s.historyStart
  let s :=
    match res.2 with
    | some c => { s with history_cursor := c }
    | none => s
  if res.1 ≠ [] then
    let last := s.get_last_line
    { s with text := (stripSuffixOpt s.text last).getD [] ++ res.1 }
  else s

/-- `ConsoleWindow::handle_key`: the key dispatcher.  The result is `some` of
(new state, consumed flag, committed line); `none` models the panic of the
`unwrap` inside `exit_search_mode`.  The `Tab` arm (tab completion, defined
outside the verified core) is the only arm not modelled. -/
def ConsoleWindow.handle_key (s : ConsoleWindow) (key : Key) (m : Modifiers) (cursor : Nat) :
    Option (ConsoleWindow × Bool × Option RStr) :=
  match m, key with
  | ⟨false, false, false, false, false⟩, Key.ArrowDown =>
    (if s.search_query.isSome then s.exit_search_mode else some s).bind fun s =>
      match s.history_cursor with
      | some hc =>
        let last := s.get_last_line
        let text := (stripSuffixOpt s.text last).getD []
        if hc = s.command_history.length - 1 then
          some ({ s with text := text, history_cursor := none }, true, none)
        else if hc < s.command_history.length - 1 then
          some ({ s with
            text := text ++ s.command_history.getD (hc + 1) []
            history_cursor := some (hc + 1) }, true, none)
        else
          some ({ s with text := text, history_cursor := some hc }, true, none)
      | none => some (s, true, none)
  | ⟨false, false, false, false, false⟩, Key.ArrowUp =>
    if s.command_history = [] then some (s, true, none)
    else
      (if s.search_query.isSome then s.exit_search_mode else some s).bind fun s =>
        some (s.history_back, true, none)
  | ⟨false, false, false, false, false⟩, Key.Enter =>
    let last := s.get_last_line
    (if s.search_query.isSome then s.exit_search_mode else some s).bind fun s =>
      let history :=
        if s.history_size ≤ s.command_history.length then s.command_history.drop 1
        else s.command_history
      let s := { s with
        command_history := history ++ [last]
        force_cursor_to_end := true
        history_cursor := none }
      some ({ s with text := truncate_scroll_back s.text s.scrollback_size }, true, some last)
  | ⟨false, false, false, false, false⟩, Key.Delete =>
    match s.search_query with
    | some q =>
      if lastLineOffset s.text + byteLen SEARCH_PROMPT - 2 + byteLen q < cursor then
        some (s, true, none)
      else some (s, false, none)
    | none => some (s, false, none)
  | ⟨false, false, false, false, false⟩, Key.ArrowRight =>
    match s.search_query with
    | some q =>
      if lastLineOffset s.text + byteLen SEARCH_PROMPT - 2 + byteLen q < cursor then
        some (s, true, none)
      else some (s, false, none)
    | none => some (s, false, none)
  | ⟨false, false, false, false, false⟩, Key.ArrowLeft
  | ⟨false, false, false, false, false⟩, Key.Backspace =>
    let last_off := lastLineOffset s.text
    match s.search_query with
    | some _ =>
      if cursor < last_off + SEARCH_PROMPT_SLOT_OFF + 2 then some (s, true, none)
      else some (s, false, none)
    | none =>
      if cursor < last_off + byteLen s.prompt + 1 then some (s, true, none)
      else some (s, false, none)
  | ⟨false, false, false, false, false⟩, Key.Escape =>
    (if s.search_query.isSome then s.exit_search_mode else some s).bind fun s =>
      some ({ s with history_cursor := none }, true, none)
  | ⟨false, true, false, false, true⟩, Key.R =>
    if s.search_query.isNone then
      let s := { s with search_query := some [] }
      some (s.enter_search_mode, true, none)
    else some (s.history_back, true, none)
  | _, _ => some (s, false, none)

/-- `console::ConsoleBuilder` (the egui theme and quote-character fields not
read by any modelled operation are kept for completeness). -/
structure ConsoleBuilder where
  prompt : RStr
  history_size : Nat
  scrollback_size : Nat
  tab_quote_character : Char
  theme : TerminalTheme

/-- `ConsoleBuilder::new`. -/
def ConsoleBuilder.new : ConsoleBuilder where
  prompt := ">> ".data
  history_size := 100
  scrollback_size := 1000
  tab_quote_character := Char.ofNat 39
  theme := TerminalTheme.default

/-- `ConsoleBuilder::build`. -/
def ConsoleBuilder.build (b : ConsoleBuilder) : ConsoleWindow :=
  { ConsoleWindow.new b.prompt with
    history_size := b.history_size
    scrollback_size := b.scrollback_size
    theme := b.theme }

/-- Lexicographic order on strings by character code, the order underlying
Rust `String: Ord` (UTF-8 byte order and code-point order agree). -/
def lexLe : RStr → RStr → Bool
  | [], _ => true
  | _ :: _, [] => false
  | a :: as, b :: bs => if a = b then lexLe as bs else decide (a < b)

/-- Insert into a `lexLe`-sorted list, keeping earlier equal elements first. -/
def insertLex (x : RStr) : List RStr → List RStr
  | [] => [x]
  | y :: ys => if lexLe x y then x :: y :: ys else y :: insertLex x ys

/-- `Vec::sort` on strings: a stable sort by `lexLe` (modelled as insertion
sort, which agrees with any stable sort for this total order). -/
def rustSort (l : List RStr) : List RStr := l.foldr insertLex []

/-- `Vec::dedup`: remove consecutive duplicates. -/
def dedupAdj : List RStr → List RStr
  | [] => []
  | [x] => [x]
  | x :: y :: rest =>
    if x = y then dedupAdj (y :: rest) else x :: dedupAdj (y :: rest)

/-- `IntelligentCompletion::resolve_command`: a direct command name, else an
alias lookup, else `none`. -/
def IntelligentCompletion.resolve_command (ic : IntelligentCompletion) (input : RStr) :
    Option RStr :=
  if (ic.command_structure.lookup input).isSome then some input
  else
    match ic.aliases.lookup input with
    | some cmd => some cmd
    | none => none

/-- `IntelligentCompletion::get_suggestions`. -/
def IntelligentCompletion.get_suggestions (ic : IntelligentCompletion) (input : RStr) :
    List RStr :=
  match splitWhitespace (rustTrim input) with
  | [] => ic.command_structure.map Prod.fst
  | [first_word] =>
    let found :=
      (ic.command_structure.map Prod.fst).filter (fun cmd => first_word.isPrefixOf cmd) ++
        (ic.aliases.map Prod.fst).filter (fun al => first_word.isPrefixOf al)
    dedupAdj (rustSort found)
  | first_word :: second :: rest =>
    match ic.resolve_command first_word with
    | none => []
    | some command =>
      match ic.command_structure.lookup command with
      | none => []
      | some cmd_info =>
        if rest = [] ∧ cmd_info.subcommands ≠ [] then
          cmd_info.subcommands.filter (fun sub => second.isPrefixOf sub)
        else if cmd_info.arguments ≠ [] then
          cmd_info.arguments.map (fun arg =>
            (if arg.is_required then [] else ['[']) ++ arg.name)
        else []

/-- `ConsoleWindow::get_intelligent_suggestions`: delegate to the structured
engine when configured, otherwise filter the flat command table by the
trimmed input as prefix (full table on empty trimmed input). -/
def ConsoleWindow.get_intelligent_suggestions (s : ConsoleWindow) (input : RStr) :
    List RStr :=
  match s.intelligent_completion with
  | some completion => completion.get_suggestions input
  | none =>
    let trimmed := rustTrim input
    if trimmed = [] then s.tab_command_table
    else s.tab_command_table.filter (fun cmd => trimmed.isPrefixOf cmd)

/-- The history effect of one committed line, read off the `Enter` arm of
`handle_key`: evict the front when the deque has reached `history_size`, then
push the line at the back. -/
def commitHistory (hist : List RStr) (size : Nat) (line : RStr) : List RStr :=
  (if size ≤ hist.length then hist.drop 1 else hist) ++ [line]

/-- The `for` loop of `truncate_scroll_back` keeps exactly the lines beyond
the threshold: from counter value `i` it produces the lines after position
`t + 1 - i`, each followed by a newline. -/
theorem keepLinesAux_eq (ls : List RStr) : ∀ t i : Nat,
    keepLinesAux t i ls = ((ls.drop (t + 1 - i)).map (fun l => l ++ ['\n'])).flatten := by
  induction ls with
  | nil => intro t i; simp [keepLinesAux]
  | cons l rest ih =>
    intro t i
    by_cases h : t < i
    · have h0 : t + 1 - i = 0 := by omega
      have h1 : t + 1 - (i + 1) = 0 := by omega
      simp [keepLinesAux, h, h0, ih, h1]
    · have h0 : t + 1 - i = (t + 1 - (i + 1)) + 1 := by omega
      simp [keepLinesAux, h, h0, ih]

/-- The console of the C1 scenario: scrollback capacity 2. -/
def c1_console : ConsoleWindow := ({ ConsoleBuilder.new with scrollback_size := 2 }).build

/-- C1 scenario: one styled write spanning two lines, then a plain write that
triggers scrollback truncation. -/
def c1_final : ConsoleWindow :=
  (c1_console.write_styled ⟨"aaaa\nbb".data, TextStyle.Normal⟩).write "c".data

/-- The invariant claim C1 asserts: every stored styled span ends within the
current text buffer. -/
def spansInBounds (s : ConsoleWindow) : Prop :=
  ∀ seg ∈ s.styled_segments, seg.2.1 ≤ byteLen s.text

/-- Claim C1: after any sequence of `write` and `write_styled` calls, every
styled span ends within the buffer, in particular after `truncate_scroll_back`
rebuilds it.  The code violates this: `truncate_scroll_back` rebuilds `text`
without touching `styled_segments`, so after `write_styled("aaaa\nbb")`
followed by `write("c")` with scrollback size 2 the buffer is `"c\n"` (2
bytes) while the retained span still covers bytes `0..7` of the discarded
text. -/
theorem C1_truncation_leaves_stale_style_spans :
    c1_final.text = "c\n".data ∧
    c1_final.styled_segments = [(0, 7, TextStyle.Normal)] ∧
    ¬ spansInBounds c1_final := by
  refine ⟨by decide, by decide, ?_⟩
  intro h
  have := h (0, 7, TextStyle.Normal) (by decide)
  revert this
  decide

/-- Claim C2 counterexample: `write` on an empty buffer.  The claim says no
newline boundary is inserted in that case, i.e. the buffer should become
`"a"`; the code unconditionally prepends `"\n"`, producing `"\na"`. -/
theorem C2_write_newline_on_empty_buffer :
    ((ConsoleWindow.new ">> ".data).text = [] ∧
      ((ConsoleWindow.new ">> ".data).write "a".data).text = '\n' :: "a".data) ∧
    ((ConsoleWindow.new ">> ".data).write "a".data).text ≠ "a".data := by
  decide

/-- Claim C2 as amended: `write(data)` always appends a newline followed by
`data`, with no emptiness or trailing-newline test (the conditional newline
of the claim belongs to `draw_prompt`, not `write`); when the resulting line
count stays below the scrollback size the buffer is exactly the old text
followed by `'\n'` and `data`. -/
theorem C2_write_always_prepends_newline (s : ConsoleWindow) (data : RStr)
    (h : (rustLines (s.text ++ '\n' :: data)).length < s.scrollback_size) :
    (s.write data).text = s.text ++ '\n' :: data ∧
    (s.write data).force_cursor_to_end = true := by
  refine ⟨?_, rfl⟩
  show truncate_scroll_back (s.text ++ '\n' :: data) s.scrollback_size = _
  unfold truncate_scroll_back
  simp [h]

/-- Witness for C2: a concrete instance of the amended statement. -/
theorem C2_write_always_prepends_newline_witness :
    ((ConsoleWindow.new ">> ".data).write "hi".data).text =
      (ConsoleWindow.new ">> ".data).text ++ '\n' :: "hi".data ∧
    ((ConsoleWindow.new ">> ".data).write "hi".data).force_cursor_to_end = true :=
  C2_write_always_prepends_newline (ConsoleWindow.new ">> ".data) "hi".data (by decide)

/-- The console of the C3 scenario: scrollback capacity 3. -/
def c3_console : ConsoleWindow := ({ ConsoleBuilder.new with scrollback_size := 3 }).build

/-- C3 scenario: four writes into a console with scrollback size 3. -/
def c3_final : ConsoleWindow :=
  (((c3_console.write "a".data).write "b".data).write "c".data).write "d".data

/-- Claim C3: when the line count reaches `scrollback_size` the buffer is
rebuilt from the most recent `scrollback_size - 1` lines (each terminated by
a newline), and is left unchanged below that; concretely, after
`write "a"/"b"/"c"/"d"` with scrollback size 3 the buffer has at most 2 lines
and no longer contains `"a"`. -/
theorem C3_scrollback_truncation :
    (∀ (text : RStr) (size : Nat), (rustLines text).length < size →
      truncate_scroll_back text size = text) ∧
    (∀ (text : RStr) (size : Nat), size ≤ (rustLines text).length →
      truncate_scroll_back text size =
        (((rustLines text).drop ((rustLines text).length - size + 1)).map
          (fun l => l ++ ['\n'])).flatten) ∧
    ((rustLines c3_final.text).length ≤ 2 ∧ rustContains c3_final.text "a".data = false) := by
  refine ⟨?_, ?_, by decide⟩
  · intro text size h
    unfold truncate_scroll_back
    simp [h]
  · intro text size h
    unfold truncate_scroll_back
    rw [if_neg (by omega), keepLinesAux_eq]
    simp

/-- Witness for C3: both truncation branches at concrete inputs. -/
theorem C3_scrollback_truncation_witness :
    truncate_scroll_back "a".data 3 = "a".data ∧
    truncate_scroll_back "a\nb\nc".data 2 =
      (((rustLines "a\nb\nc".data).drop ((rustLines "a\nb\nc".data).length - 2 + 1)).map
        (fun l => l ++ ['\n'])).flatten :=
  ⟨C3_scrollback_truncation.1 "a".data 3 (by decide),
    C3_scrollback_truncation.2.1 "a\nb\nc".data 2 (by decide)⟩

/-- Claim C4: in normal mode, for every cursor offset strictly below
start-of-last-line plus the prompt length plus one, Backspace and ArrowLeft
(no modifiers) are consumed no-ops: `handle_key` reports consumed with no
committed line and returns the state unchanged. -/
theorem C4_boundary_consumed_noop (s : ConsoleWindow) (cursor : Nat)
    (hq : s.search_query = none)
    (hc : cursor < lastLineOffset s.text + byteLen s.prompt + 1) :
    s.handle_key Key.Backspace Modifiers.NONE cursor = some (s, true, none) ∧
    s.handle_key Key.ArrowLeft Modifiers.NONE cursor = some (s, true, none) := by
  constructor <;>
    simp [ConsoleWindow.handle_key, Modifiers.NONE, hq, hc]

/-- Witness for C4: cursor offset 0 on a fresh console with prompt
`">> "`. -/
theorem C4_boundary_consumed_noop_witness :
    (ConsoleWindow.new ">> ".data).handle_key Key.Backspace Modifiers.NONE 0 =
      some (ConsoleWindow.new ">> ".data, true, none) ∧
    (ConsoleWindow.new ">> ".data).handle_key Key.ArrowLeft Modifiers.NONE 0 =
      some (ConsoleWindow.new ">> ".data, true, none) :=
  C4_boundary_consumed_noop (ConsoleWindow.new ">> ".data) 0 rfl (by decide)

/-- Two drops of the same list at equal indices are equal. -/
theorem dropCongr {α : Type} (l : List α) {a b : Nat} (hab : a = b) :
    l.drop a = l.drop b := by rw [hab]

/-- The console of the C5 counterexample: history capacity 0. -/
def c5_console : ConsoleWindow := ({ ConsoleBuilder.new with history_size := 0 }).build

/-- Claim C5 counterexample: with `history_size = 0`, one Enter press (one
committed line, so N = 1 > history_size) leaves one entry in the history
deque, not the `history_size = 0` entries the claim requires: the eviction
`pop_front` on an empty deque is a no-op, after which `push_back` still
runs. -/
theorem C5_history_size_zero_counterexample :
    c5_console.history_size = 0 ∧
    (c5_console.handle_key Key.Enter Modifiers.NONE 0).map
        (fun r => r.1.command_history) = some [[]] := by
  decide

/-- Claim C5 as amended: for `history_size ≥ 1`.  Each Enter press with
search mode inactive commits `get_last_line`, pushing it at the back after
evicting the front when the deque is at capacity, and resets the browsing
cursor to `none` (first conjunct); and folding that commit step over any
sequence of more than `history_size` lines starting from an empty deque
retains exactly the most recent `history_size` lines, oldest first (second
conjunct). -/
theorem C5_history_eviction :
    (∀ (s : ConsoleWindow) (c : Nat), s.search_query = none →
      (s.handle_key Key.Enter Modifiers.NONE c).map
          (fun r => (r.1.command_history, r.1.history_cursor, r.2)) =
        some (commitHistory s.command_history s.history_size s.get_last_line,
          none, true, some s.get_last_line)) ∧
    (∀ (size : Nat) (lines : List RStr), 1 ≤ size → size < lines.length →
      lines.foldl (fun h l => commitHistory h size l) [] =
        lines.drop (lines.length - size)) := by
  constructor
  · intro s c hq
    simp [ConsoleWindow.handle_key, Modifiers.NONE, hq, commitHistory]
  · intro size lines h1 _
    have key : ∀ (ls : List RStr) (h : List RStr), h.length ≤ size →
        ls.foldl (fun acc l => commitHistory acc size l) h =
          (h ++ ls).drop (h.length + ls.length - size) := by
      intro ls
      induction ls with
      | nil => intro h hh; simp [Nat.sub_eq_zero_of_le hh]
      | cons l rest ih =>
        intro h hh
        rw [List.foldl_cons]
        rcases Nat.lt_or_ge h.length size with hlt | hge
        · have hcommit : commitHistory h size l = h ++ [l] := by
            unfold commitHistory
            rw [if_neg (by omega)]
          have hlen : (commitHistory h size l).length ≤ size := by
            rw [hcommit]
            simp only [List.length_append, List.length_cons, List.length_nil]
            omega
          rw [ih _ hlen, hcommit, List.append_assoc, List.singleton_append]
          exact dropCongr _ (by
            simp only [List.length_append, List.length_cons, List.length_nil]
            omega)
        · have hcommit : commitHistory h size l = h.drop 1 ++ [l] := by
            unfold commitHistory
            rw [if_pos hge]
          have hlen : (commitHistory h size l).length ≤ size := by
            rw [hcommit]
            simp only [List.length_append, List.length_drop, List.length_cons,
              List.length_nil]
            omega
          rw [ih _ hlen, hcommit, List.append_assoc, List.singleton_append]
          have hr : (h ++ l :: rest).drop (h.length + (l :: rest).length - size) =
              (h.drop 1 ++ l :: rest).drop rest.length := by
            rw [dropCongr (h ++ l :: rest)
              (show h.length + (l :: rest).length - size = 1 + rest.length by
                simp only [List.length_cons]
                omega)]
            rw [← List.drop_drop, List.drop_append_of_le_length (by omega)]
          rw [hr]
          exact dropCongr _ (by
            simp only [List.length_append, List.length_drop, List.length_cons,
              List.length_nil]
            omega)
    have := key lines [] (by simp)
    simpa using this

/-- Witness for C5: the commit step on a fresh console, and the fold over
three lines with capacity 2. -/
theorem C5_history_eviction_witness :
    ((ConsoleWindow.new ">> ".data).handle_key Key.Enter Modifiers.NONE 0).map
        (fun r => (r.1.command_history, r.1.history_cursor, r.2)) =
      some (commitHistory (ConsoleWindow.new ">> ".data).command_history
          (ConsoleWindow.new ">> ".data).history_size
          (ConsoleWindow.new ">> ".data).get_last_line,
        none, true, some (ConsoleWindow.new ">> ".data).get_last_line) ∧
    (["a".data, "b".data, "c".data].foldl (fun h l => commitHistory h 2 l) [] =
      ["a".data, "b".data, "c".data].drop 1) :=
  ⟨C5_history_eviction.1 (ConsoleWindow.new ">> ".data) 0 rfl,
    by
      have := C5_history_eviction.2 2 ["a".data, "b".data, "c".data] (by decide) (by decide)
      simpa using this⟩

/-- The C6 scenario console: search mode active with query `"a"` spliced
into the search prompt, history `["cab", "xab", "abc"]` (oldest first),
browsing cursor cleared as the draw loop does before each re-scan. -/
def c6_console : ConsoleWindow :=
  { ConsoleWindow.new ">> ".data with
    command_history := ["cab".data, "xab".data, "abc".data]
    prompt := "(reverse-i-search) a:".data
    text := "(reverse-i-search) a:".data
    search_query := some "a".data }

/-- The C6 scenario console after the query grew to `"ab"`. -/
def c6_console2 : ConsoleWindow :=
  { ConsoleWindow.new ">> ".data with
    command_history := ["cab".data, "xab".data, "abc".data]
    prompt := "(reverse-i-search) ab:".data
    text := "(reverse-i-search) ab:".data
    search_query := some "ab".data }

/-- Claim C6: with a non-empty query the backward scan starts strictly below
the cursor (or at the newest entry when it is `none`), skips entries not
containing the query, stops at the first (newest) match and sets the cursor
there (first conjunct); when no entry down to index 0 matches, the whole
state — in particular the cursor — is left unchanged, with no wraparound
(second conjunct); and against history `["cab", "xab", "abc"]` the queries
`"a"` and `"ab"` both select `"abc"` (index 2, the newest) first, splicing it
into the current line (third and fourth conjuncts). -/
theorem C6_search_scan :
    (∀ (history : List RStr) (q : RStr) (hc i : Nat), q ≠ [] → i < hc →
      rustContains (history.getD i []) q = true →
      (∀ j, i < j → j < hc → rustContains (history.getD j []) q = false) →
      historyBackScan history (some q) hc = (history.getD i [], some (some i))) ∧
    (∀ (s : ConsoleWindow) (q : RStr), s.search_query = some q → q ≠ [] →
      (∀ j, j < s.historyStart → rustContains (s.command_history.getD j []) q = false) →
      s.history_back = s) ∧
    (c6_console.history_back =
      { c6_console with
        history_cursor := some 2
        text := c6_console.text ++ "abc".data }) ∧
    (c6_console2.history_back =
      { c6_console2 with
        history_cursor := some 2
        text := c6_console2.text ++ "abc".data }) := by
  refine ⟨?_, ?_, by decide, by decide⟩
  · intro history q hc
    induction hc with
    | zero => intro i _ hi _ _; exact absurd hi (by omega)
    | succ n ih =>
      intro i hq hi hcont hnone
      rcases Nat.lt_or_ge i n with hin | hin
      · have hn : rustContains (history.getD n []) q = false := hnone n (by omega) (by omega)
        simp only [historyBackScan, hq, if_neg hq, hn]
        simp only [Bool.false_eq_true, if_false]
        exact ih i hq hin hcont (fun j h1 h2 => hnone j h1 (by omega))
      · have hieq : i = n := by omega
        subst hieq
        simp only [historyBackScan, if_neg hq, hcont]
        simp
  · intro s q hqs hq hnone
    have hscan : ∀ n : Nat,
        (∀ j, j < n → rustContains (s.command_history.getD j []) q = false) →
        historyBackScan s.command_history (some q) n = ([], none) := by
      intro n
      induction n with
      | zero => intro _; rfl
      | succ m ih =>
        intro hn
        have hm : rustContains (s.command_history.getD m []) q = false := hn m (by omega)
        simp only [historyBackScan, hq, if_neg hq, hm]
        simp only [Bool.false_eq_true, if_false]
        exact ih (fun j hj => hn j (by omega))
    simp [ConsoleWindow.history_back, hqs, hscan s.historyStart hnone]

/-- Witness for C6: the scan at the concrete history of the scenario, and the
no-match case on an empty history. -/
theorem C6_search_scan_witness :
    (historyBackScan ["cab".data, "xab".data, "abc".data] (some "a".data) 3 =
      (["cab".data, "xab".data, "abc".data].getD 2 [], some (some 2))) ∧
    ({ ConsoleWindow.new ">> ".data with search_query := some "a".data }.history_back =
      { ConsoleWindow.new ">> ".data with search_query := some "a".data }) :=
  ⟨C6_search_scan.1 ["cab".data, "xab".data, "abc".data] "a".data 3 2 (by decide)
      (by decide) (by decide) (fun j h1 h2 => absurd h2 (by omega)),
    C6_search_scan.2.1 { ConsoleWindow.new ">> ".data with search_query := some "a".data }
      "a".data rfl (by decide)
      (by
        intro j hj
        rw [show ({ ConsoleWindow.new ">> ".data with
            search_query := some "a".data } : ConsoleWindow).historyStart = 0 from rfl] at hj
        omega)⟩

/-- Claim C7: entering search mode and exiting it immediately restores the
exact prior prompt and clears the search state (both the query and the saved
prompt). -/
theorem C7_search_mode_prompt_restore (s : ConsoleWindow) :
    ∃ t : ConsoleWindow, s.enter_search_mode.exit_search_mode = some t ∧
      t.prompt = s.prompt ∧ t.search_query = none ∧ t.save_prompt = none := by
  exact ⟨_, rfl, rfl, rfl, rfl⟩

/-- The C8 counterexample console: three registered commands, two of them
equal, none of it sorted. -/
def c8_console : ConsoleWindow :=
  { ConsoleWindow.new ">> ".data with
    tab_command_table := ["ab".data, "ab".data, "aa".data] }

/-- A second C8 console showing the first-token part of the claim failing. -/
def c8_console2 : ConsoleWindow :=
  { ConsoleWindow.new ">> ".data with tab_command_table := ["ax".data] }

/-- Claim C8 counterexample: the fallback of `get_intelligent_suggestions`
neither sorts nor deduplicates (input `"a"` over table `["ab", "ab", "aa"]`
returns `["ab", "ab", "aa"]` verbatim), and it filters by the whole trimmed
input rather than its first token (input `"a b"` over table `["ax"]` returns
`[]` although `"a"`, the first token, is a prefix of `"ax"`). -/
theorem C8_fallback_counterexample :
    (c8_console.get_intelligent_suggestions "a".data =
        ["ab".data, "ab".data, "aa".data] ∧
      ¬ (c8_console.get_intelligent_suggestions "a".data).Nodup ∧
      c8_console.get_intelligent_suggestions "a".data ≠
        rustSort (c8_console.get_intelligent_suggestions "a".data)) ∧
    (c8_console2.get_intelligent_suggestions "a b".data = [] ∧
      "a".data.isPrefixOf "ax".data = true) := by
  decide

/-- Claim C8 as amended: with no intelligent completion index and a non-empty
trimmed input, the fallback returns exactly the registered entries having the
whole trimmed input as a (case-sensitive) prefix, in registration order
(a sublist of the table), with no sorting or deduplication applied. -/
theorem C8_fallback_prefix_filter (s : ConsoleWindow) (input : RStr)
    (hic : s.intelligent_completion = none) (hne : rustTrim input ≠ []) :
    s.get_intelligent_suggestions input =
      s.tab_command_table.filter (fun cmd => (rustTrim input).isPrefixOf cmd) ∧
    (s.get_intelligent_suggestions input).Sublist s.tab_command_table := by
  have h : s.get_intelligent_suggestions input =
      s.tab_command_table.filter (fun cmd => (rustTrim input).isPrefixOf cmd) := by
    simp [ConsoleWindow.get_intelligent_suggestions, hic, hne]
  exact ⟨h, h ▸ List.filter_sublist _⟩

/-- Witness for C8: the amended statement at the counterexample console. -/
theorem C8_fallback_prefix_filter_witness :
    c8_console.get_intelligent_suggestions "a".data =
      c8_console.tab_command_table.filter
        (fun cmd => (rustTrim "a".data).isPrefixOf cmd) ∧
    (c8_console.get_intelligent_suggestions "a".data).Sublist
      c8_console.tab_command_table :=
  C8_fallback_prefix_filter c8_console "a".data rfl (by decide)

/-- The C9 index: command `"copy"` (alias `"cp"`), no subcommands, a required
argument `"src"` and an optional argument `"dest"`. -/
def c9_completion : IntelligentCompletion :=
  { aliases := [("cp".data, "copy".data)]
    command_structure := [("copy".data,
      { description := []
        subcommands := []
        arguments := [⟨"src".data, [], true⟩, ⟨"dest".data, [], false⟩] })] }

/-- Claim C9: with two or more tokens resolving to a command with declared
arguments, each suggestion is the argument name annotated `name` when
required and `[name]` — opening and closing bracket — when optional, in
declaration order.  The code omits the closing bracket: the format string
prepends `"["` for an optional argument but appends nothing, so
`get_suggestions("copy x")` (and via the alias, `"cp x"`) yields
`["src", "[dest"]`, not `["src", "[dest]"]`. -/
theorem C9_optional_arg_missing_bracket :
    c9_completion.get_suggestions "copy x".data = ["src".data, '[' :: "dest".data] ∧
    c9_completion.get_suggestions "cp x".data = ["src".data, '[' :: "dest".data] ∧
    '[' :: "dest".data ≠ "[dest]".data := by
  decide

/-- Claim C10: Enter (no modifiers) always commits; when the last line does
not start with the active prompt — in particular on an empty buffer —
`get_last_line` is the empty string, which is both returned as the committed
line and pushed into the history. -/
theorem C10_enter_commits_empty_line (s : ConsoleWindow) (c : Nat)
    (hq : s.search_query = none)
    (hp : s.prompt.isPrefixOf ((rustLines s.text).getLastD []) = false) :
    s.get_last_line = [] ∧
    (s.handle_key Key.Enter Modifiers.NONE c).map
        (fun r => (r.1.command_history, r.2)) =
      some (commitHistory s.command_history s.history_size [], true, some []) := by
  have hlast : s.get_last_line = [] := by
    unfold ConsoleWindow.get_last_line stripPrefixOpt
    rw [if_neg (fun hco => Bool.false_ne_true (hp ▸ hco))]
    rfl
  refine ⟨hlast, ?_⟩
  simp [ConsoleWindow.handle_key, Modifiers.NONE, hq, hlast, commitHistory]

/-- Witness for C10: Enter on a fresh console with empty buffer. -/
theorem C10_enter_commits_empty_line_witness :
    (ConsoleWindow.new ">> ".data).get_last_line = [] ∧
    ((ConsoleWindow.new ">> ".data).handle_key Key.Enter Modifiers.NONE 0).map
        (fun r => (r.1.command_history, r.2)) =
      some (commitHistory (ConsoleWindow.new ">> ".data).command_history
        (ConsoleWindow.new ">> ".data).history_size [], true, some []) :=
  C10_enter_commits_empty_line (ConsoleWindow.new ">> ".data) 0 rfl (by decide)

end EguiConsole
